import Mathlib

/-!
Shallow embedding of `get-links.py` (repository NotNotQuinn/image-finder).

The script scans chatterino chat-log files, extracts image links for the
hosts imgur.com, gyazo.com and nuuls.com via a regular expression,
filters the resulting records and writes them to an SQLite database or a
JSON document.

Modelling conventions:
* Python strings are `List Char`.
* Python `\d` and `\w` (which are Unicode-aware in Python 3) are modelled
  over their ASCII cores `Char.isDigit` / alphanumerics plus underscore;
  all claims under scrutiny concern ASCII inputs.
* A raised exception is an `Except PyErr` error value; `get_links` catches
  only `ValueError` (as the source does), so an `IndexError` escapes.
* A log file is its base name together with its decoded lines
  (`none` models a `UnicodeDecodeError` while reading the file).
* Machine-level aliasing (Python objects mutated in place) is rendered by
  the value-level result collections the functions return.
-/

instance {ε α : Type} [DecidableEq ε] [DecidableEq α] : DecidableEq (Except ε α) :=
  fun x y =>
    match x, y with
    | .ok a, .ok b =>
      if h : a = b then .isTrue (by rw [h]) else .isFalse (fun hc => by cases hc; exact h rfl)
    | .error a, .error b =>
      if h : a = b then .isTrue (by rw [h]) else .isFalse (fun hc => by cases hc; exact h rfl)
    | .ok _, .error _ => .isFalse (fun hc => Except.noConfusion hc)
    | .error _, .ok _ => .isFalse (fun hc => Except.noConfusion hc)

/-- Python exception kinds relevant to the script: `ValueError` (caught in
`get_links`) and `IndexError` (never caught). -/
inductive PyErr : Type where
  | valueError : PyErr
  | indexError : PyErr
deriving DecidableEq, Repr

/-- Enum `LinkType` from the source: the three supported hosts, whose
enum values are the host domain strings. -/
inductive LinkType : Type where
  | Imgur : LinkType
  | Gyazo : LinkType
  | Nuuls : LinkType
deriving DecidableEq, Repr

/-- The `.value` of the Python enum member: its domain string. -/
def LinkType.value : LinkType → List Char
  | .Imgur => "imgur.com".toList
  | .Gyazo => "gyazo.com".toList
  | .Nuuls => "nuuls.com".toList

/-- Result of `datetime.date(y, m, d)`. -/
structure PyDate : Type where
  year : Nat
  month : Nat
  day : Nat
deriving DecidableEq, Repr

/-- Result of `datetime.datetime(y, mo, d, h, mi, s)`. -/
structure PyDateTime : Type where
  year : Nat
  month : Nat
  day : Nat
  hour : Nat
  minute : Nat
  second : Nat
deriving DecidableEq, Repr

/-- Class `LinkData`: one extracted link record.  Field `type` holds the
`link_type` kwarg, exactly as in the source constructor. -/
structure LinkData : Type where
  link : List Char
  user : List Char
  date : PyDateTime
  channel : List Char
  specific_id : List Char
  message : List Char
  type : LinkType
deriving DecidableEq, Repr

/-- Method `LinkData.raw_link`: canonical direct-image URL rebuilt from the
link type and the specific id. -/
def LinkData.raw_link (l : LinkData) : List Char :=
  match l.type with
  | .Imgur => "https://i.imgur.com/".toList ++ l.specific_id ++ ".png".toList
  | .Gyazo => "https://i.gyazo.com/".toList ++ l.specific_id ++ ".png".toList
  | .Nuuls => "https://i.nuuls.com/".toList ++ l.specific_id ++ ".png".toList

/-- ASCII core of Python's regex class `\w`: letters, digits, underscore. -/
def isWordChar (c : Char) : Bool :=
  c.isAlphanum || c = '_'

/-- Character class `[\w\-]` of the link regex. -/
def wordHy (c : Char) : Bool :=
  isWordChar c || c = '-'

/-- Numeric value of a digit string (used for `int(...)` on digit groups). -/
def digitsVal (ds : List Char) : Nat :=
  ds.foldl (fun a c => 10 * a + (c.toNat - 48)) 0

/-- Read exactly `n` decimal digits from the front of a string, as the
regex groups `\d{4}` / `\d{2}` do; returns the digits and the rest. -/
def splitDigits : Nat → List Char → Option (List Char × List Char)
  | 0, t => some ([], t)
  | _ + 1, [] => none
  | n + 1, c :: t =>
    if c.isDigit then (splitDigits n t).map (fun p => (c :: p.1, p.2)) else none

/-- Python `str.lower`, on its ASCII core. -/
def pyLower (s : List Char) : List Char :=
  s.map Char.toLower

/-- Python whitespace stripped by `int(...)`. -/
def isPyWS (c : Char) : Bool :=
  c = ' ' || c = '\t' || c = '\n' || c = '\r'

/-- Strip whitespace from both ends (the normalization `int(...)` applies). -/
def stripWS (s : List Char) : List Char :=
  ((s.dropWhile isPyWS).reverse.dropWhile isPyWS).reverse

/-- Python `int(s)` for decimal literals: optional surrounding whitespace,
optional sign, then a nonempty digit run; anything else raises ValueError
(modelled as `none`). -/
def pyInt (s : List Char) : Option Int :=
  match stripWS s with
  | '-' :: ds =>
    if ds.isEmpty then none
    else if ds.all Char.isDigit then some (-(Int.ofNat (digitsVal ds))) else none
  | '+' :: ds =>
    if ds.isEmpty then none
    else if ds.all Char.isDigit then some (Int.ofNat (digitsVal ds)) else none
  | ds =>
    if ds.isEmpty then none
    else if ds.all Char.isDigit then some (Int.ofNat (digitsVal ds)) else none

/-- Python `str.partition(sep)`: split at the first occurrence of `sep`;
the Bool records whether the separator was found (`(s, "", "")` when not). -/
def pyPartition (sep : List Char) : List Char → List Char × Bool × List Char
  | [] => ([], false, [])
  | c :: t =>
    if sep.isPrefixOf (c :: t) then ([], true, (c :: t).drop sep.length)
    else
      match pyPartition sep t with
      | (a, f, b) => (c :: a, f, b)

/-- Python `str.split(" ")`: split at every single space, keeping empty
pieces. -/
def pySplitSpace : List Char → List (List Char)
  | [] => [[]]
  | c :: t =>
    match pySplitSpace t with
    | [] => [[]]
    | w :: ws => if c = ' ' then [] :: w :: ws else (c :: w) :: ws

/-- Python `str.isascii`. -/
def pyIsAscii (s : List Char) : Bool :=
  s.all (fun c => c.toNat ≤ 127)

/-- Leap-year rule used by `datetime`. -/
def isLeap (y : Nat) : Bool :=
  y % 4 = 0 && (y % 100 ≠ 0 || y % 400 = 0)

/-- Days in a month, as `datetime` validates them. -/
def daysInMonth (y m : Nat) : Nat :=
  if m = 2 then (if isLeap y then 29 else 28)
  else if m = 4 || m = 6 || m = 9 || m = 11 then 30
  else 31

/-- Constructor `datetime.date(y, m, d)`: validates its arguments
(`MINYEAR = 1`, `MAXYEAR = 9999`) and raises ValueError otherwise. -/
def date_new (y m d : Nat) : Option PyDate :=
  if 1 ≤ y ∧ y ≤ 9999 ∧ 1 ≤ m ∧ m ≤ 12 ∧ 1 ≤ d ∧ d ≤ daysInMonth y m then
    some ⟨y, m, d⟩
  else none

/-- Constructor `datetime.datetime(y, mo, d, h, mi, s)` with the time
fields as the `int(...)` results (hence `Int`). -/
def datetime_new (y mo d : Nat) (h mi s : Int) : Option PyDateTime :=
  if 1 ≤ y ∧ y ≤ 9999 ∧ 1 ≤ mo ∧ mo ≤ 12 ∧ 1 ≤ d ∧ d ≤ daysInMonth y mo
      ∧ 0 ≤ h ∧ h ≤ 23 ∧ 0 ≤ mi ∧ mi ≤ 59 ∧ 0 ≤ s ∧ s ≤ 59 then
    some ⟨y, mo, d, h.toNat, mi.toNat, s.toNat⟩
  else none

/-- One literal `-` expected by the filename regex between its groups. -/
def expectHyphen (t : List Char) : Option (List Char) :=
  match t with
  | c :: r => if c = '-' then some r else none
  | [] => none

/-- Match of the anchored filename regex
`^([^-]*)-((\d{4})-(\d{2})-(\d{2}))\.log$` against a base name.  The
channel group `[^-]*` is necessarily the maximal hyphen-free prefix, the
digit groups have fixed width, and Python's `$` also matches just before
a single trailing newline. -/
def matchFilename (s : List Char) : Option (List Char × Nat × Nat × Nat) :=
  (expectHyphen (s.dropWhile (fun x => x ≠ '-'))).bind fun r1 =>
  (splitDigits 4 r1).bind fun p1 =>
  (expectHyphen p1.2).bind fun r3 =>
  (splitDigits 2 r3).bind fun p2 =>
  (expectHyphen p2.2).bind fun r5 =>
  (splitDigits 2 r5).bind fun p3 =>
  if p3.2 = ".log".toList ∨ p3.2 = ".log\n".toList then
    some (s.takeWhile (fun x => x ≠ '-'), digitsVal p1.1, digitsVal p2.1, digitsVal p3.1)
  else none

/-- Function `get_logfile_info`: channel and date of a log file, from its
base name; raises ValueError when the name does not match the pattern or
`datetime.date` rejects the numbers. -/
def get_logfile_info (basename : List Char) : Except PyErr (List Char × PyDate) :=
  match matchFilename basename with
  | none => .error .valueError
  | some (c, y, m, d) =>
    match date_new y m d with
    | none => .error .valueError
    | some dt => .ok (c, dt)

/-- Function `parse_line`: user, message and timestamp of one log line.
`line[12:]` is split on the first `": "`; a non-ASCII user token is
replaced by its second space-delimited piece (`split(" ")[1]`, an
IndexError when absent); the time is read from `line[1:9]`. -/
def parse_line (line : List Char) (asumeDate : PyDate) :
    Except PyErr (List Char × List Char × PyDateTime) :=
  match pyPartition ": ".toList (line.drop 12) with
  | (user0, _, message) =>
    let userE : Except PyErr (List Char) :=
      if pyIsAscii user0 then .ok user0
      else
        match pySplitSpace user0 with
        | _ :: second :: _ => .ok second
        | _ => .error .indexError
    match userE with
    | .error e => .error e
    | .ok user =>
      match pyPartition [':'] ((line.drop 1).take 8) with
      | (hourS, _, rest) =>
        match pyPartition [':'] rest with
        | (minsS, _, secondS) =>
          match pyInt hourS, pyInt minsS, pyInt secondS with
          | some h, some mi, some s =>
            match datetime_new asumeDate.year asumeDate.month asumeDate.day h mi s with
            | some dt => .ok (user, message, dt)
            | none => .error .valueError
          | _, _, _ => .error .valueError

/-- Strip a literal pattern piece from the front of a string (one regex
alternative step); `some r` leaves the rest when the piece is present. -/
def stripPre : List Char → List Char → Option (List Char)
  | [], t => some t
  | _ :: _, [] => none
  | p :: ps, c :: t => if p = c then stripPre ps t else none

/-- One extracted regex match: link type (group 3), specific id (group 4)
and the whole matched text (group 0). -/
structure LinkMatch : Type where
  host : LinkType
  id : List Char
  full : List Char
deriving DecidableEq, Repr

/-- Tail of the link regex after the host alternative: `/([\w\-]*)(\.\w*)?`.
`pre` is the text the match consumed so far (for group 0); both the id
run and the optional extension are greedy with nothing after them. -/
def finishMatch (pre : List Char) (h : LinkType) (t : List Char) :
    Option (LinkMatch × List Char) :=
  match t with
  | '/' :: t1 =>
    let id := t1.takeWhile wordHy
    let r1 := t1.dropWhile wordHy
    match r1 with
    | '.' :: r2 =>
      some (⟨h, id, pre ++ '/' :: id ++ '.' :: r2.takeWhile isWordChar⟩,
        r2.dropWhile isWordChar)
    | _ => some (⟨h, id, pre ++ '/' :: id⟩, r1)
  | _ => none

/-- Host alternation `imgur\.com|gyazo\.com|(?<=i\.)nuuls\.com`, tried in
order; `iOk` says whether the two characters just before this position in
the whole text are `i.` (the lookbehind for nuuls). -/
def hostPart (pre : List Char) (iOk : Bool) (t : List Char) :
    Option (LinkMatch × List Char) :=
  (match stripPre "imgur.com".toList t with
   | some r => finishMatch (pre ++ "imgur.com".toList) .Imgur r
   | none => none) <|>
  (match stripPre "gyazo.com".toList t with
   | some r => finishMatch (pre ++ "gyazo.com".toList) .Gyazo r
   | none => none) <|>
  (if iOk then
    match stripPre "nuuls.com".toList t with
    | some r => finishMatch (pre ++ "nuuls.com".toList) .Nuuls r
    | none => none
  else none)

/-- Optional subdomain group `(i\.)?`, greedy: try with `i.` first (which
validates the nuuls lookbehind), then without. -/
def afterScheme (pre : List Char) (prevI : Bool) (t : List Char) :
    Option (LinkMatch × List Char) :=
  (match stripPre "i.".toList t with
   | some r => hostPart (pre ++ "i.".toList) true r
   | none => none) <|>
  hostPart pre prevI t

/-- Attempt of the whole link regex
`(https?://)?(i\.)?(imgur\.com|gyazo\.com|(?<=i\.)nuuls\.com)/([\w\-]*)(\.\w*)?`
at one position: scheme alternatives greedily first (after a scheme the
preceding characters are `//`, so the lookbehind can only be satisfied by
the `i.` group).  `prevI` says whether the text just before this position
ends in `i.`. -/
def tryMatch (prevI : Bool) (t : List Char) : Option (LinkMatch × List Char) :=
  (match stripPre "https://".toList t with
   | some r => afterScheme "https://".toList false r
   | none => none) <|>
  (match stripPre "http://".toList t with
   | some r => afterScheme "http://".toList false r
   | none => none) <|>
  afterScheme [] prevI t

/-- Whether the already-scanned text (held reversed) ends in `i.`. -/
def endsInIDot (rp : List Char) : Bool :=
  match rp with
  | '.' :: 'i' :: _ => true
  | _ => false

/-- Scanner behind `re.finditer`: leftmost matches, resuming after each
match; `rp` is the already-scanned text reversed (it feeds the nuuls
lookbehind).  Fuel is the length of the remaining text; every step
consumes at least one character, so it suffices. -/
def scanAux : Nat → List Char → List Char → List LinkMatch
  | 0, _, _ => []
  | _ + 1, _, [] => []
  | fuel + 1, rp, c :: t =>
    match tryMatch (endsInIDot rp) (c :: t) with
    | some (m, rest) => m :: scanAux fuel (m.full.reverse ++ rp) rest
    | none => scanAux fuel (c :: rp) t

/-- `re.finditer(linkRegex, line)`, yielding group data per match. -/
def scanLine (t : List Char) : List LinkMatch :=
  scanAux t.length [] t

/-- A log file as the extractor sees it: its base name and its decoded
lines; `none` models a `UnicodeDecodeError`, after which `lines = []`. -/
structure LogFile : Type where
  name : List Char
  content : Option (List (List Char))
deriving DecidableEq, Repr

/-- Body of the per-match loop of `get_links`: each regex match becomes a
record unless `parse_line` raises ValueError (caught: next match) or the
user name contains a space (skipped); an IndexError escapes the loop. -/
def processMatches (channel : List Char) (fileDate : PyDate) (line : List Char) :
    List LinkMatch → Except PyErr (List LinkData)
  | [] => .ok []
  | m :: ms =>
    match parse_line line fileDate with
    | .error .valueError => processMatches channel fileDate line ms
    | .error .indexError => .error .indexError
    | .ok (user, message, messageDate) =>
      if user.count ' ' ≠ 0 then processMatches channel fileDate line ms
      else
        match processMatches channel fileDate line ms with
        | .error e => .error e
        | .ok ls =>
          .ok (⟨m.full, user, messageDate, channel, m.id, message, m.host⟩ :: ls)

/-- Per-line loop of `get_links`: comment lines (starting with `#`) are
skipped, other lines are scanned for link matches. -/
def processLines (channel : List Char) (fileDate : PyDate) :
    List (List Char) → Except PyErr (List LinkData)
  | [] => .ok []
  | line :: rest =>
    if line.take 1 = ['#'] then processLines channel fileDate rest
    else
      match processMatches channel fileDate line (scanLine line) with
      | .error e => .error e
      | .ok ls =>
        match processLines channel fileDate rest with
        | .error e => .error e
        | .ok more => .ok (ls ++ more)

/-- Function `get_links`: all image links of one log file.  The filename
is parsed first (an unparseable name raises out of the function); a
decode failure leaves `lines = []` and yields no records. -/
def get_links (logfile : LogFile) : Except PyErr (List LinkData) :=
  match get_logfile_info logfile.name with
  | .error e => .error e
  | .ok (channel, fileDate) =>
    processLines channel fileDate (logfile.content.getD [])

/-- Function `filter_and_format_links`: drops known non-image ids per
host and strips newlines from the message of every kept record. -/
def filter_and_format_links : List LinkData → List LinkData
  | [] => []
  | l :: ls =>
    if l.specific_id = "a".toList ∧ l.type = .Imgur then
      filter_and_format_links ls
    else if l.specific_id = "gallery".toList ∧ l.type = .Imgur then
      filter_and_format_links ls
    else if l.specific_id = "upload".toList ∧ l.type = .Imgur then
      filter_and_format_links ls
    else if l.specific_id = "thumb".toList ∧ l.type = .Gyazo then
      filter_and_format_links ls
    else
      { l with message := l.message.filter (fun c => c ≠ '\n') } ::
        filter_and_format_links ls

/-- File loop of `get_all_links`: records of every file concatenated in
order; no exception is caught here, so the first raising file aborts the
whole batch. -/
def collectLinks : List LogFile → Except PyErr (List LinkData)
  | [] => .ok []
  | f :: fs =>
    match get_links f with
    | .error e => .error e
    | .ok ls =>
      match collectLinks fs with
      | .error e => .error e
      | .ok more => .ok (ls ++ more)

/-- Function `get_all_links` on an already-enumerated batch of files
(file enumeration by channel directory is outside the embedding). -/
def get_all_links (files : List LogFile) : Except PyErr (List LinkData) :=
  match collectLinks files with
  | .error e => .error e
  | .ok links => .ok (filter_and_format_links links)

/-- Two decimal digits, zero padded (a `datetime` isoformat component). -/
def pad2 (n : Nat) : List Char :=
  [Char.ofNat (48 + n / 10 % 10), Char.ofNat (48 + n % 10)]

/-- Four decimal digits, zero padded (the isoformat year). -/
def pad4 (n : Nat) : List Char :=
  [Char.ofNat (48 + n / 1000 % 10), Char.ofNat (48 + n / 100 % 10),
   Char.ofNat (48 + n / 10 % 10), Char.ofNat (48 + n % 10)]

/-- Python `datetime.isoformat()` for a whole-second timestamp:
`YYYY-MM-DDTHH:MM:SS`. -/
def isoformat (d : PyDateTime) : List Char :=
  pad4 d.year ++ '-' :: pad2 d.month ++ '-' :: pad2 d.day ++
    'T' :: pad2 d.hour ++ ':' :: pad2 d.minute ++ ':' :: pad2 d.second

/-- Removal of newlines and carriage returns applied to `Message_Text`
at insert time (`replace('\n','').replace('\r','')`). -/
def stripNLCR (s : List Char) : List Char :=
  s.filter (fun c => ¬ (c = '\n' ∨ c = '\r'))

/-- One row of the `images` table: the surrogate `ID` plus the eight
inserted columns. -/
structure Row : Type where
  id : Nat
  specific_id : List Char
  link : List Char
  link_type : List Char
  raw_link : List Char
  date_posted : List Char
  user_posted : List Char
  channel_posted : List Char
  message_text : List Char
deriving DecidableEq, Repr

/-- The natural key covered by the unique index `UNIQUE_ENTRIES_IN_IMAGES`:
(Specific_ID, Link_Type, Date_Posted, User_Posted, Channel_Posted,
Message_Text). -/
def natKey (r : Row) :
    List Char × List Char × List Char × List Char × List Char × List Char :=
  (r.specific_id, r.link_type, r.date_posted, r.user_posted,
   r.channel_posted, r.message_text)

/-- The `images` table plus the AUTOINCREMENT counter for `ID`. -/
structure DB : Type where
  rows : List Row
  nextId : Nat
deriving DecidableEq, Repr

/-- A freshly created output database (AUTOINCREMENT starts at 1). -/
def emptyDB : DB := ⟨[], 1⟩

/-- The row a record is inserted as (the VALUES tuple of the INSERT). -/
def rowOf (nextId : Nat) (l : LinkData) : Row :=
  ⟨nextId, l.specific_id, l.link, l.type.value, l.raw_link,
   isoformat l.date, l.user, l.channel, stripNLCR l.message⟩

/-- One `INSERT OR REPLACE` statement: any row sharing the natural key is
deleted and the new row is appended with a fresh surrogate id; SQLite
counts the statement as one changed row. -/
def insertOrReplace (db : DB) (l : LinkData) : DB :=
  let r := rowOf db.nextId l
  ⟨db.rows.filter (fun q => ¬ natKey q = natKey r) ++ [r], db.nextId + 1⟩

/-- Function `save_links_db`: `executemany` of `INSERT OR REPLACE` over the
record list; returns the updated database and the reported `rowcount`
(the sum of per-statement change counts). -/
def save_links_db (links : List LinkData) (db : DB) : DB × Nat :=
  links.foldl (fun p l => (insertOrReplace p.1 l, p.2 + 1)) (db, 0)

/-- Channel normalization in `verify_args`: the CLI channel arguments are
lower-cased. -/
def verify_args_channels (channels : List (List Char)) : List (List Char) :=
  channels.map pyLower

/-- Answers that leave the confirmation loop of `main`. -/
def yesAnswers : List (List Char) := ["yes".toList, "y".toList, "".toList]

/-- Answers that make `main` call `sys.exit(0)`. -/
def noAnswers : List (List Char) := ["n".toList, "no".toList]

/-- The initial value of `answer` before the loop first prompts. -/
def dummyAnswer : List Char := "some random dummy data".toList

/-- Outcome of the confirmation loop. -/
inductive GateResult : Type where
  | proceed : GateResult
  | exited : Nat → GateResult
  | inputExhausted : GateResult
deriving DecidableEq, Repr

/-- The `while not args['skip_prompt'] and answer.lower() not in
["yes", "y", ""]` loop: each iteration reads the next answer; `n`/`no`
triggers `sys.exit(0)`; running out of interactive input is an uncaught
EOFError. -/
def gateLoop (skip : Bool) (answer : List Char) : List (List Char) → GateResult
  | [] =>
    if ¬ skip ∧ ¬ pyLower answer ∈ yesAnswers then .inputExhausted else .proceed
  | a :: rest =>
    if ¬ skip ∧ ¬ pyLower answer ∈ yesAnswers then
      if pyLower a ∈ noAnswers then .exited 0 else gateLoop skip a rest
    else .proceed

/-- Observable outcome of `main` from the point where the filtered links
are known: either the database was written (with the reported count), or
the run exited at the prompt before any write, or input ran out. -/
inductive MainResult : Type where
  | wrote : Nat → DB → MainResult
  | aborted : Nat → MainResult
  | inputError : MainResult
deriving DecidableEq, Repr

/-- Write phase of `main` (sql format, fresh output file): the prompt is
reached only when at least 1000 links were kept, and `save_links` runs
only when the loop ends in `proceed`. -/
def main_write_phase (links : List LinkData) (skip : Bool)
    (answers : List (List Char)) : MainResult :=
  if 1000 ≤ links.length then
    match gateLoop skip dummyAnswer answers with
    | .proceed =>
      match save_links_db links emptyDB with
      | (db, n) => .wrote n db
    | .exited c => .aborted c
    | .inputExhausted => .inputError
  else
    match save_links_db links emptyDB with
    | (db, n) => .wrote n db

/-- The spec's running example line, exactly as written (single space
after the timestamp). -/
def c1line : List Char :=
  "[12:30:45] someuser: check this https://imgur.com/abc123.jpg".toList

/-- The spec's running example file `chan-2021-05-26.log`. -/
def c1file : LogFile := ⟨"chan-2021-05-26.log".toList, some [c1line]⟩

/-- The record the code actually produces for `c1file`. -/
def c1record : LinkData :=
  ⟨"https://imgur.com/abc123.jpg".toList, "omeuser".toList,
   ⟨2021, 5, 26, 12, 30, 45⟩, "chan".toList, "abc123".toList,
   "check this https://imgur.com/abc123.jpg".toList, .Imgur⟩

/-- A batch file whose base name does not match the filename pattern. -/
def badNameFile : LogFile := ⟨"notes.txt".toList, some []⟩

/-- A well-formed log file whose only line links an imgur gallery page. -/
def galleryFile : LogFile :=
  ⟨"chan-2021-05-26.log".toList,
   some ["[12:30:45]  user: https://imgur.com/gallery/xyz".toList]⟩

/-- A log file with an upper-case channel component and a mixed-case
user name. -/
def c10file : LogFile :=
  ⟨"ChanX-2021-05-26.log".toList,
   some ["[12:30:45]  SomeUser: https://i.imgur.com/A1b2.png".toList]⟩

/-- A concrete record used to instantiate the universally quantified
theorems; its message carries an embedded newline. -/
def sampleLink : LinkData :=
  ⟨"https://imgur.com/abc123.jpg".toList, "quinn".toList,
   ⟨2021, 5, 26, 12, 30, 45⟩, "chan".toList, "abc123".toList,
   "look\nhere".toList, .Imgur⟩

/-- A collection of 1500 qualifying records (the spec's gate example). -/
def sample1500 : List LinkData := List.replicate 1500 sampleLink

/-- The formatting step of `filter_and_format_links` on one record:
newlines are stripped from the message, nothing else changes. -/
def stripMsgRecord (l : LinkData) : LinkData :=
  { l with message := l.message.filter (fun c => c ≠ '\n') }

/-- Whether `filter_and_format_links` keeps a record: its specific id is
not one of the known non-image path segments for its host. -/
def keepLink (l : LinkData) : Bool :=
  decide (¬ ((l.specific_id = "a".toList ∧ l.type = LinkType.Imgur) ∨
    (l.specific_id = "gallery".toList ∧ l.type = LinkType.Imgur) ∨
    (l.specific_id = "upload".toList ∧ l.type = LinkType.Imgur) ∨
    (l.specific_id = "thumb".toList ∧ l.type = LinkType.Gyazo)))

/-- Scheme alternatives of the link regex: absent, `http://`, `https://`. -/
def mkScheme : Option Bool → List Char
  | none => []
  | some true => "https://".toList
  | some false => "http://".toList

/-- The optional `i.` subdomain of the link regex. -/
def mkSub : Bool → List Char
  | true => "i.".toList
  | false => []

/-- The optional extension suffix of the link regex. -/
def mkExt : Option (List Char) → List Char
  | none => []
  | some e => '.' :: e

/-- A URL of exactly the shape the link regex is meant to recognize. -/
def mkUrl (sch : Option Bool) (isub : Bool) (h : LinkType) (id : List Char)
    (ext : Option (List Char)) : List Char :=
  mkScheme sch ++ (mkSub isub ++ (h.value ++ ('/' :: (id ++ mkExt ext))))

/-- The record the code produces for `c10file`: upper case preserved in
both the channel (from the file name) and the user. -/
def c10record : LinkData :=
  ⟨"https://i.imgur.com/A1b2.png".toList, "SomeUser".toList,
   ⟨2021, 5, 26, 12, 30, 45⟩, "ChanX".toList, "A1b2".toList,
   "https://i.imgur.com/A1b2.png".toList, .Imgur⟩


/-!
Theorems.  Shared helper lemmas come first, then one theorem per claim
(with its witness or counterexample where required).
-/

theorem takeWhile_append_of_all {α : Type} (p : α → Bool) :
    ∀ (l r : List α), (∀ c ∈ l, p c = true) →
      (l ++ r).takeWhile p = l ++ r.takeWhile p ∧
        (l ++ r).dropWhile p = r.dropWhile p := by
  intro l
  induction l with
  | nil => intro r _; simp
  | cons a l ih =>
    intro r h
    have ha : p a = true := h a (by simp)
    rcases ih r (fun c hc => h c (by simp [hc])) with ⟨h1, h2⟩
    refine ⟨?_, ?_⟩
    · simp [List.takeWhile_cons, ha, h1]
    · simp [List.dropWhile_cons, ha, h2]

theorem ffl_filter_map (ls : List LinkData) :
    filter_and_format_links ls = (ls.filter keepLink).map stripMsgRecord := by
  induction ls with
  | nil => rfl
  | cons l ls ih =>
    by_cases h1 : l.specific_id = "a".toList ∧ l.type = LinkType.Imgur
    · simp [filter_and_format_links, h1, List.filter_cons, keepLink, h1.1, h1.2, ih]
    · by_cases h2 : l.specific_id = "gallery".toList ∧ l.type = LinkType.Imgur
      · simp [filter_and_format_links, h1, h2, List.filter_cons, keepLink, h2.1, h2.2, ih]
      · by_cases h3 : l.specific_id = "upload".toList ∧ l.type = LinkType.Imgur
        · simp [filter_and_format_links, h1, h2, h3, List.filter_cons, keepLink,
            h3.1, h3.2, ih]
        · by_cases h4 : l.specific_id = "thumb".toList ∧ l.type = LinkType.Gyazo
          · simp [filter_and_format_links, h1, h2, h3, h4, List.filter_cons, keepLink,
              h4.1, h4.2, ih]
          · have hk : keepLink l = true := by
              simp [keepLink]
              tauto
            simp only [filter_and_format_links, List.filter_cons, hk]
            rw [if_neg h1, if_neg h2, if_neg h3, if_neg h4]
            simp [ih, stripMsgRecord]

theorem keepLink_strip (l : LinkData) : keepLink (stripMsgRecord l) = keepLink l := rfl

theorem strip_idem (l : LinkData) :
    stripMsgRecord (stripMsgRecord l) = stripMsgRecord l := by
  simp [stripMsgRecord, List.filter_filter]

/-- C1.  Corrected: on the spec's example line (a single space after the
timestamp) the code's fixed 12-character prefix skip also consumes the
first letter of the user name, so the one extracted record carries user
`omeuser`; channel, specific id, link type, timestamp and raw link are as
the claim states. -/
theorem c1_example_extraction :
    get_all_links [c1file] = .ok [c1record]
      ∧ c1record.channel = "chan".toList
      ∧ c1record.user = "omeuser".toList
      ∧ c1record.specific_id = "abc123".toList
      ∧ c1record.type = LinkType.Imgur
      ∧ c1record.date = ⟨2021, 5, 26, 12, 30, 45⟩
      ∧ c1record.raw_link = "https://i.imgur.com/abc123.png".toList := by
  decide

/-- C1 counterexample: extraction of the spec's example file is a single
record whose user field is `omeuser`, not `someuser` as claimed. -/
theorem c1_counterexample :
    get_all_links [c1file] = .ok [c1record]
      ∧ ¬ c1record.user = "someuser".toList := by
  decide

/-- C6.  Corrected: every record surviving the global filter descends from
an input record with all fields unchanged except the message, which is the
input message with the newline characters removed (`filter_and_format_links`
rewrites `link.message` in place). -/
theorem c6_fields_preserved_except_message :
    ∀ (links : List LinkData) (r : LinkData), r ∈ filter_and_format_links links →
      ∃ r0, r0 ∈ links ∧ r.link = r0.link ∧ r.user = r0.user ∧ r.date = r0.date
        ∧ r.channel = r0.channel ∧ r.specific_id = r0.specific_id
        ∧ r.type = r0.type
        ∧ r.message = r0.message.filter (fun c => c ≠ '\n') := by
  intro links r h
  rw [ffl_filter_map] at h
  rcases List.mem_map.mp h with ⟨r0, hr0, rfl⟩
  exact ⟨r0, (List.mem_filter.mp hr0).1, rfl, rfl, rfl, rfl, rfl, rfl, rfl⟩

/-- C6 witness: the theorem applied to the concrete collection
`[sampleLink]`. -/
theorem c6_witness :
    ∃ r0, r0 ∈ [sampleLink]
      ∧ (stripMsgRecord sampleLink).link = r0.link
      ∧ (stripMsgRecord sampleLink).user = r0.user
      ∧ (stripMsgRecord sampleLink).date = r0.date
      ∧ (stripMsgRecord sampleLink).channel = r0.channel
      ∧ (stripMsgRecord sampleLink).specific_id = r0.specific_id
      ∧ (stripMsgRecord sampleLink).type = r0.type
      ∧ (stripMsgRecord sampleLink).message = r0.message.filter (fun c => c ≠ '\n') :=
  c6_fields_preserved_except_message [sampleLink] (stripMsgRecord sampleLink) (by decide)

/-- C6 counterexample: a record whose message holds a newline is changed
by the filtering pass, so records are not immutable as claimed. -/
theorem c6_counterexample :
    filter_and_format_links [sampleLink] = [stripMsgRecord sampleLink]
      ∧ ¬ stripMsgRecord sampleLink = sampleLink
      ∧ ¬ filter_and_format_links [sampleLink] = [sampleLink] := by
  decide

/-- C8.  Confirmed: the global filter drops exactly the records whose
specific id is `a`, `gallery` or `upload` on imgur, or `thumb` on gyazo,
keeps every other record with newlines stripped from its message, and the
concrete imgur `gallery` line is extracted by `get_links` but erased by
the global filter. -/
theorem c8_filter_drop_set :
    (∀ ls, filter_and_format_links ls = (ls.filter keepLink).map stripMsgRecord)
      ∧ (∀ l : LinkData, keepLink l = false ↔
          ((l.type = LinkType.Imgur ∧ (l.specific_id = "a".toList
              ∨ l.specific_id = "gallery".toList ∨ l.specific_id = "upload".toList))
            ∨ (l.type = LinkType.Gyazo ∧ l.specific_id = "thumb".toList)))
      ∧ get_links galleryFile
          = .ok [⟨"https://imgur.com/gallery".toList, "user".toList,
                  ⟨2021, 5, 26, 12, 30, 45⟩, "chan".toList, "gallery".toList,
                  "https://imgur.com/gallery/xyz".toList, LinkType.Imgur⟩]
      ∧ get_all_links [galleryFile] = .ok [] := by
  refine ⟨ffl_filter_map, ?_, by decide, by decide⟩
  intro l
  simp [keepLink]
  tauto

/-- C9.  Confirmed: the global filter-and-format pass is idempotent. -/
theorem c9_filter_idempotent (ls : List LinkData) :
    filter_and_format_links (filter_and_format_links ls)
      = filter_and_format_links ls := by
  rw [ffl_filter_map, ffl_filter_map, List.filter_map]
  have hc : (keepLink ∘ stripMsgRecord) = keepLink := funext (fun l => keepLink_strip l)
  rw [hc, List.map_map, List.filter_filter]
  have h1 : (fun a => keepLink a && keepLink a) = keepLink :=
    funext (fun l => Bool.and_self (keepLink l))
  have h2 : (stripMsgRecord ∘ stripMsgRecord) = stripMsgRecord :=
    funext (fun l => strip_idem l)
  rw [h1, h2]

theorem save_rowcount (ls : List LinkData) :
    ∀ (db : DB) (n : Nat),
      (ls.foldl (fun p l => (insertOrReplace p.1 l, p.2 + 1)) (db, n)).2
        = n + ls.length := by
  induction ls with
  | nil => intro db n; simp
  | cons l ls ih =>
    intro db n
    simp only [List.foldl_cons, List.length_cons]
    rw [ih (insertOrReplace db l) (n + 1)]
    omega

theorem countP_filter_not {α : Type} (p : α → Bool) :
    ∀ l : List α, l.countP p = 1 →
      (l.filter (fun x => !p x)).length + 1 = l.length
        ∧ (l.filter (fun x => !p x)).countP p = 0 := by
  intro l
  induction l with
  | nil => intro h; simp at h
  | cons a l ih =>
    intro h
    by_cases hpa : p a = true
    · have h0 : l.countP p = 0 := by
        rw [List.countP_cons, hpa] at h
        simp only [if_true] at h
        omega
      have hf : l.filter (fun x => !p x) = l := by
        rw [List.filter_eq_self]
        intro b hb
        have hb2 := List.countP_eq_zero.mp h0 b hb
        simp only [Bool.not_eq_true] at hb2
        simp [hb2]
      refine ⟨?_, ?_⟩
      · simp [List.filter_cons, hpa, hf]
      · simp [List.filter_cons, hpa, hf, h0]
    · have hpa2 : p a = false := by
        cases hb : p a
        · rfl
        · exact absurd hb hpa
      have h1 : l.countP p = 1 := by
        rw [List.countP_cons, hpa2] at h
        simp at h
        omega
      rcases ih h1 with ⟨ih1, ih2⟩
      refine ⟨?_, ?_⟩
      · simp [List.filter_cons, hpa2]
        omega
      · simp [List.filter_cons, List.countP_cons, hpa2, ih2]

theorem filter_key_out
    (k : List Char × List Char × List Char × List Char × List Char × List Char)
    (rows : List Row) (h : rows.countP (fun q => natKey q = k) = 1) :
    (rows.filter (fun q => ¬ natKey q = k)).length + 1 = rows.length
      ∧ (rows.filter (fun q => ¬ natKey q = k)).countP (fun q => natKey q = k) = 0 := by
  have he : (fun q => decide (¬ natKey q = k))
      = (fun q => !(fun r => decide (natKey r = k)) q) := by
    funext q
    simp [decide_not]
  have := countP_filter_not (fun q => decide (natKey q = k)) rows h
  simpa [he] using this

/-- C5.  Confirmed: writing a collection twice reports the same row count
both times (each `INSERT OR REPLACE` statement counts one changed row),
and inserting a record whose natural key already has a row replaces that
row: the table size and the key's row count stay the same and the new row
is present. -/
theorem c5_upsert_rowcount :
    (∀ links : List LinkData,
      (save_links_db links emptyDB).2
        = (save_links_db links (save_links_db links emptyDB).1).2)
      ∧ (∀ (db : DB) (l : LinkData),
          db.rows.countP (fun q => natKey q = natKey (rowOf db.nextId l)) = 1 →
            (insertOrReplace db l).rows.length = db.rows.length
              ∧ rowOf db.nextId l ∈ (insertOrReplace db l).rows
              ∧ (insertOrReplace db l).rows.countP
                  (fun q => natKey q = natKey (rowOf db.nextId l)) = 1) := by
  constructor
  · intro links
    show (links.foldl _ (emptyDB, 0)).2 = (links.foldl _ (_, 0)).2
    rw [save_rowcount links emptyDB 0, save_rowcount]
  · intro db l hcount
    rcases filter_key_out (natKey (rowOf db.nextId l)) db.rows hcount with ⟨h1, h2⟩
    refine ⟨?_, ?_, ?_⟩
    · show (_ ++ [rowOf db.nextId l]).length = _
      rw [List.length_append]
      simpa using h1
    · exact List.mem_append_right _ (by simp)
    · show (_ ++ [rowOf db.nextId l]).countP _ = 1
      rw [List.countP_append, h2]
      simp

/-- C5 witness: the theorem applied to the singleton collection
`[sampleLink]` and to a database already holding that record's row. -/
theorem c5_witness :
    ((save_links_db [sampleLink] emptyDB).2
        = (save_links_db [sampleLink] (save_links_db [sampleLink] emptyDB).1).2)
      ∧ ((insertOrReplace ⟨[rowOf 1 sampleLink], 2⟩ sampleLink).rows.length
            = (⟨[rowOf 1 sampleLink], 2⟩ : DB).rows.length
          ∧ rowOf (⟨[rowOf 1 sampleLink], 2⟩ : DB).nextId sampleLink
              ∈ (insertOrReplace ⟨[rowOf 1 sampleLink], 2⟩ sampleLink).rows
          ∧ (insertOrReplace ⟨[rowOf 1 sampleLink], 2⟩ sampleLink).rows.countP
              (fun q => natKey q
                = natKey (rowOf (⟨[rowOf 1 sampleLink], 2⟩ : DB).nextId sampleLink)) = 1) :=
  ⟨c5_upsert_rowcount.1 [sampleLink],
   c5_upsert_rowcount.2 ⟨[rowOf 1 sampleLink], 2⟩ sampleLink (by decide)⟩

theorem gateLoop_negative :
    ∀ (pre : List (List Char)) (answer neg : List Char) (rest : List (List Char)),
      ¬ pyLower answer ∈ yesAnswers →
      (∀ a ∈ pre, ¬ pyLower a ∈ yesAnswers ∧ ¬ pyLower a ∈ noAnswers) →
      pyLower neg ∈ noAnswers →
      gateLoop false answer (pre ++ neg :: rest) = .exited 0 := by
  intro pre
  induction pre with
  | nil =>
    intro answer neg rest ha _ hneg
    show gateLoop false answer (neg :: rest) = _
    rw [gateLoop, if_pos ⟨by simp, ha⟩, if_pos hneg]
  | cons a pre ih =>
    intro answer neg rest ha hpre hneg
    have h1 := hpre a (by simp)
    show gateLoop false answer (a :: (pre ++ neg :: rest)) = _
    rw [gateLoop, if_pos ⟨by simp, ha⟩, if_neg h1.2]
    exact ih a neg rest h1.1 (fun b hb => hpre b (by simp [hb])) hneg

/-- C7.  Corrected: with at least 1000 kept records and the skip flag
unset, the run prompts, and a negative answer (after any number of
indecisive answers) terminates before any write — but via `sys.exit(0)`,
an exit status of 0, not a non-zero-equivalent status. -/
theorem c7_negative_answer_aborts :
    ∀ (links : List LinkData) (pre : List (List Char)) (neg : List Char)
      (rest : List (List Char)),
      1000 ≤ links.length →
      (∀ a ∈ pre, ¬ pyLower a ∈ yesAnswers ∧ ¬ pyLower a ∈ noAnswers) →
      pyLower neg ∈ noAnswers →
      main_write_phase links false (pre ++ neg :: rest) = .aborted 0 := by
  intro links pre neg rest hlen hpre hneg
  have hd : ¬ pyLower dummyAnswer ∈ yesAnswers := by decide
  simp only [main_write_phase, if_pos hlen]
  rw [gateLoop_negative pre dummyAnswer neg rest hd hpre hneg]

/-- C7 witness: 1500 records, skip flag unset, one indecisive then one
negative answer: the run ends with exit code 0 and nothing written. -/
theorem c7_witness :
    main_write_phase sample1500 false ["maybe".toList, "no".toList] = .aborted 0 :=
  c7_negative_answer_aborts sample1500 ["maybe".toList] "no".toList []
    (by simp only [sample1500, List.length_replicate]; omega) (by decide) (by decide)

set_option maxRecDepth 10000 in
/-- C7 counterexample: on 1500 qualifying records and the answer `n`, the
program terminates with exit status 0 (from `sys.exit(0)`), not with a
non-zero-equivalent status as the claim states; no write occurs. -/
theorem c7_counterexample :
    main_write_phase sample1500 false ["n".toList] = .aborted 0 := by
  decide

theorem collectLinks_error :
    ∀ files : List LogFile,
      (∃ f ∈ files, ∃ e, get_logfile_info f.name = .error e) →
      ∃ e2, collectLinks files = .error e2 := by
  intro files
  induction files with
  | nil => rintro ⟨f, hf, _⟩; simp at hf
  | cons f fs ih =>
    rintro ⟨g, hg, e, he⟩
    rcases List.mem_cons.mp hg with rfl | hmem
    · refine ⟨e, ?_⟩
      have hgl : get_links g = .error e := by
        rw [get_links, he]
      rw [collectLinks, hgl]
    · cases hgl : get_links f with
      | error e2 => exact ⟨e2, by rw [collectLinks, hgl]⟩
      | ok ls =>
        rcases ih ⟨g, hmem, e, he⟩ with ⟨e3, he3⟩
        exact ⟨e3, by rw [collectLinks, hgl, he3]⟩

/-- C2.  Corrected: a file whose content cannot be decoded yields no
records and the batch continues, but a file whose base name does not
parse raises an uncaught ValueError out of `get_all_links`: the whole
batch aborts with an error and no records at all are returned. -/
theorem c2_batch_behaviour :
    (∀ files : List LogFile,
      (∃ f ∈ files, ∃ e, get_logfile_info f.name = .error e) →
      ∃ e2, get_all_links files = .error e2)
      ∧ (∀ (name c : List Char) (dt : PyDate),
          get_logfile_info name = .ok (c, dt) →
          get_links ⟨name, none⟩ = .ok []) := by
  constructor
  · intro files hex
    rcases collectLinks_error files hex with ⟨e2, he2⟩
    exact ⟨e2, by rw [get_all_links, he2]⟩
  · intro name c dt h
    rw [get_links, h]
    rfl

/-- C2 witness: the theorem applied to a one-bad-file batch and to a
well-named file with undecodable content. -/
theorem c2_witness :
    (∃ e2, get_all_links [badNameFile, c1file] = .error e2)
      ∧ get_links ⟨"chan-2021-05-26.log".toList, none⟩ = .ok [] :=
  ⟨c2_batch_behaviour.1 [badNameFile, c1file]
      ⟨badNameFile, by simp, .valueError, by decide⟩,
   c2_batch_behaviour.2 "chan-2021-05-26.log".toList "chan".toList ⟨2021, 5, 26⟩
      (by decide)⟩

/-- C2 counterexample: a batch of an unparseable-named file followed by a
good file errors out as a whole — the good file's record (which the same
file yields when processed alone) is lost, so extraction does not continue
over the remaining files as claimed. -/
theorem c2_counterexample :
    get_all_links [badNameFile, c1file] = .error .valueError
      ∧ get_all_links [c1file] = .ok [c1record] := by
  decide

theorem processMatches_channel (chan : List Char) (fd : PyDate) (line : List Char) :
    ∀ (ms : List LinkMatch) (ls : List LinkData),
      processMatches chan fd line ms = .ok ls → ∀ r ∈ ls, r.channel = chan := by
  intro ms
  induction ms with
  | nil =>
    intro ls h
    simp only [processMatches] at h
    cases h
    simp
  | cons m ms ih =>
    intro ls h
    simp only [processMatches] at h
    split at h
    · exact ih ls h
    · cases h
    · split at h
      · exact ih ls h
      · split at h
        · cases h
        · next ls0 hq =>
            cases h
            intro r hr
            rcases List.mem_cons.mp hr with rfl | hr2
            · rfl
            · exact ih ls0 hq r hr2

theorem processLines_channel (chan : List Char) (fd : PyDate) :
    ∀ (lines : List (List Char)) (ls : List LinkData),
      processLines chan fd lines = .ok ls → ∀ r ∈ ls, r.channel = chan := by
  intro lines
  induction lines with
  | nil =>
    intro ls h
    simp only [processLines] at h
    cases h
    simp
  | cons line rest ih =>
    intro ls h
    simp only [processLines] at h
    split at h
    · exact ih ls h
    · split at h
      · cases h
      · next ls1 hm =>
          split at h
          · cases h
          · next ls2 hr =>
              cases h
              intro r hmem
              rcases List.mem_append.mp hmem with h1 | h2
              · exact processMatches_channel chan fd line (scanLine line) ls1 hm r h1
              · exact ih ls2 hr r h2

/-- C10.  Corrected: a record's channel field is the channel component of
the log file's base name taken as-is (only the CLI channel arguments are
lower-cased, in `verify_args`), and the user field is stored as parsed:
a file named with an upper-case channel yields records with that exact
channel, and a mixed-case user name is preserved. -/
theorem c10_channel_user :
    (∀ (file : LogFile) (c : List Char) (dt : PyDate) (links : List LinkData),
      get_logfile_info file.name = .ok (c, dt) →
      get_links file = .ok links →
      ∀ r ∈ links, r.channel = c)
      ∧ verify_args_channels ["AbC".toList] = ["abc".toList]
      ∧ get_all_links [c10file] = .ok [c10record]
      ∧ c10record.channel = "ChanX".toList
      ∧ c10record.user = "SomeUser".toList := by
  refine ⟨?_, by decide, by decide, rfl, rfl⟩
  intro file c dt links h1 h2 r hr
  rw [get_links, h1] at h2
  exact processLines_channel c dt (file.content.getD []) links h2 r hr

/-- C10 witness: the channel part of the theorem applied to the concrete
file `ChanX-2021-05-26.log`. -/
theorem c10_witness : c10record.channel = "ChanX".toList :=
  c10_channel_user.1 c10file "ChanX".toList ⟨2021, 5, 26⟩ [c10record]
    (by decide) (by decide) c10record (by simp)

/-- C10 counterexample: the record extracted from `ChanX-2021-05-26.log`
has channel `ChanX`, which is not lower-cased. -/
theorem c10_counterexample :
    get_all_links [c10file] = .ok [c10record]
      ∧ ¬ c10record.channel = pyLower c10record.channel := by
  decide


theorem splitDigits_eq_some :
    ∀ (n : Nat) (t ds r : List Char), splitDigits n t = some (ds, r) ↔
      (ds.length = n ∧ (∀ c ∈ ds, c.isDigit = true) ∧ t = ds ++ r) := by
  intro n
  induction n with
  | zero =>
    intro t ds r
    constructor
    · intro h
      simp only [splitDigits] at h
      cases h
      simp
    · rintro ⟨hlen, _, rfl⟩
      rw [List.length_eq_zero] at hlen
      subst hlen
      rfl
  | succ n ih =>
    intro t ds r
    constructor
    · intro h
      cases t with
      | nil => simp [splitDigits] at h
      | cons c t2 =>
        simp only [splitDigits] at h
        by_cases hc : c.isDigit = true
        · rw [if_pos hc] at h
          rw [Option.map_eq_some'] at h
          obtain ⟨⟨ds0, r0⟩, hs, hval⟩ := h
          cases hval
          rcases (ih t2 ds0 r0).mp hs with ⟨hl, hd, rfl⟩
          refine ⟨by simp [hl], ?_, rfl⟩
          intro x hx
          rcases List.mem_cons.mp hx with rfl | hx2
          · exact hc
          · exact hd x hx2
        · rw [if_neg hc] at h
          cases h
    · rintro ⟨hlen, hdig, rfl⟩
      cases ds with
      | nil => simp at hlen
      | cons c ds2 =>
        have h1 : splitDigits n (ds2 ++ r) = some (ds2, r) :=
          (ih (ds2 ++ r) ds2 r).mpr
            ⟨by simpa using hlen, fun x hx => hdig x (by simp [hx]), rfl⟩
        show splitDigits (n + 1) (c :: (ds2 ++ r)) = some (c :: ds2, r)
        simp only [splitDigits, h1]
        rw [if_pos (hdig c (by simp))]
        rfl

theorem expectHyphen_eq_some (t r : List Char) :
    expectHyphen t = some r ↔ t = '-' :: r := by
  cases t with
  | nil => simp [expectHyphen]
  | cons c t2 =>
    simp only [expectHyphen]
    by_cases hc : c = '-'
    · subst hc
      simp
    · rw [if_neg hc]
      simp [hc]

theorem expectHyphen_cons (r : List Char) : expectHyphen ('-' :: r) = some r := rfl

theorem takeWhile_hyph (c r : List Char) (hc : '-' ∉ c) :
    (c ++ '-' :: r).takeWhile (fun x => x ≠ '-') = c
      ∧ (c ++ '-' :: r).dropWhile (fun x => x ≠ '-') = '-' :: r := by
  have hall : ∀ x ∈ c, (fun x => decide (x ≠ '-')) x = true := by
    intro x hx
    simp only [decide_eq_true_eq]
    intro he
    exact hc (he ▸ hx)
  rcases takeWhile_append_of_all (fun x => decide (x ≠ '-')) c ('-' :: r) hall with ⟨h1, h2⟩
  constructor
  · rw [h1, List.takeWhile_cons_of_neg (by simp)]
    simp
  · rw [h2, List.dropWhile_cons_of_neg (by simp)]

theorem matchFilename_iff (s cS : List Char) (y m d : Nat) :
    matchFilename s = some (cS, y, m, d) ↔
      ∃ ys ms ds tail,
        s = cS ++ '-' :: (ys ++ '-' :: (ms ++ '-' :: (ds ++ '.' :: 'l' :: 'o' :: 'g' :: tail)))
          ∧ (tail = [] ∨ tail = ['\n'])
          ∧ '-' ∉ cS
          ∧ ys.length = 4 ∧ ms.length = 2 ∧ ds.length = 2
          ∧ (∀ x ∈ ys, x.isDigit = true) ∧ (∀ x ∈ ms, x.isDigit = true)
          ∧ (∀ x ∈ ds, x.isDigit = true)
          ∧ y = digitsVal ys ∧ m = digitsVal ms ∧ d = digitsVal ds := by
  constructor
  · intro h
    simp only [matchFilename, Option.bind_eq_some] at h
    obtain ⟨r1, hh1, p1, hsd1, r3, hh3, p2, hsd2, r5, hh5, p3, hsd3, hfin⟩ := h
    obtain ⟨ys, r2⟩ := p1
    obtain ⟨ms, r4⟩ := p2
    obtain ⟨ds, r6⟩ := p3
    simp only [expectHyphen_eq_some] at hh1 hh3 hh5
    rcases (splitDigits_eq_some 4 r1 ys r2).mp hsd1 with ⟨hy4, hyd, rfl⟩
    rcases (splitDigits_eq_some 2 r3 ms r4).mp hsd2 with ⟨hm2, hmd, rfl⟩
    rcases (splitDigits_eq_some 2 r5 ds r6).mp hsd3 with ⟨hd2, hdd, rfl⟩
    have hc : '-' ∉ s.takeWhile (fun x => x ≠ '-') := by
      intro hmem
      have := List.mem_takeWhile_imp hmem
      simp at this
    have hs : s = s.takeWhile (fun x => x ≠ '-') ++ '-' :: (ys ++ r2) := by
      rw [← hh1, List.takeWhile_append_dropWhile]
    split at hfin
    case isTrue hcond =>
      cases hfin
      rw [hh3, hh5] at hs
      rcases hcond with h6 | h6
      · have h6b : r6 = ".log".toList := h6
        rw [h6b] at hs
        exact ⟨ys, ms, ds, [], hs, Or.inl rfl, hc, hy4, hm2, hd2,
          hyd, hmd, hdd, rfl, rfl, rfl⟩
      · have h6b : r6 = ".log\n".toList := h6
        rw [h6b] at hs
        exact ⟨ys, ms, ds, ['\n'], hs, Or.inr rfl, hc, hy4, hm2, hd2,
          hyd, hmd, hdd, rfl, rfl, rfl⟩
    case isFalse => cases hfin
  · rintro ⟨ys, ms, ds, tail, rfl, htail, hc, h4, h2m, h2d, hys, hms, hds, rfl, rfl, rfl⟩
    obtain ⟨htw, hdw⟩ :=
      takeWhile_hyph cS (ys ++ '-' :: (ms ++ '-' :: (ds ++ '.' :: 'l' :: 'o' :: 'g' :: tail))) hc
    have hsd1 : splitDigits 4 (ys ++ '-' :: (ms ++ '-' :: (ds ++ '.' :: 'l' :: 'o' :: 'g' :: tail)))
        = some (ys, '-' :: (ms ++ '-' :: (ds ++ '.' :: 'l' :: 'o' :: 'g' :: tail))) :=
      (splitDigits_eq_some 4 _ ys _).mpr ⟨h4, hys, rfl⟩
    have hsd2 : splitDigits 2 (ms ++ '-' :: (ds ++ '.' :: 'l' :: 'o' :: 'g' :: tail))
        = some (ms, '-' :: (ds ++ '.' :: 'l' :: 'o' :: 'g' :: tail)) :=
      (splitDigits_eq_some 2 _ ms _).mpr ⟨h2m, hms, rfl⟩
    have hsd3 : splitDigits 2 (ds ++ '.' :: 'l' :: 'o' :: 'g' :: tail)
        = some (ds, '.' :: 'l' :: 'o' :: 'g' :: tail) :=
      (splitDigits_eq_some 2 _ ds _).mpr ⟨h2d, hds, rfl⟩
    simp only [matchFilename, htw, hdw, expectHyphen_cons, Option.some_bind,
      hsd1, hsd2, hsd3]
    rcases htail with rfl | rfl
    · rw [if_pos (Or.inl (by decide))]
    · rw [if_pos (Or.inr (by decide))]

theorem date_new_eq_some (y m d : Nat) (dt : PyDate) :
    date_new y m d = some dt ↔
      ((1 ≤ y ∧ y ≤ 9999 ∧ 1 ≤ m ∧ m ≤ 12 ∧ 1 ≤ d ∧ d ≤ daysInMonth y m)
        ∧ dt = ⟨y, m, d⟩) := by
  constructor
  · intro h
    simp only [date_new] at h
    split at h
    case isTrue hcond =>
      cases h
      exact ⟨hcond, rfl⟩
    case isFalse => cases h
  · rintro ⟨hcond, rfl⟩
    simp only [date_new]
    rw [if_pos hcond]

/-- C3.  Corrected: `get_logfile_info` succeeds exactly on base names
`<channel>-<YYYY>-<MM>-<DD>.log` (optionally with one trailing newline,
which Python's `$` tolerates) whose channel part contains no hyphen and
whose digits form a calendar-valid date; it then returns exactly that
channel and date.  A channel containing `-`, or an invalid date such as
month 13, makes parsing fail even though the name fits the claimed
pattern. -/
theorem c3_filename_parsing (s cS : List Char) (dt : PyDate) :
    get_logfile_info s = .ok (cS, dt) ↔
      ∃ ys ms ds tail,
        s = cS ++ '-' :: (ys ++ '-' :: (ms ++ '-' :: (ds ++ '.' :: 'l' :: 'o' :: 'g' :: tail)))
          ∧ (tail = [] ∨ tail = ['\n'])
          ∧ '-' ∉ cS
          ∧ ys.length = 4 ∧ ms.length = 2 ∧ ds.length = 2
          ∧ (∀ x ∈ ys, x.isDigit = true) ∧ (∀ x ∈ ms, x.isDigit = true)
          ∧ (∀ x ∈ ds, x.isDigit = true)
          ∧ dt = ⟨digitsVal ys, digitsVal ms, digitsVal ds⟩
          ∧ 1 ≤ digitsVal ys ∧ digitsVal ys ≤ 9999
          ∧ 1 ≤ digitsVal ms ∧ digitsVal ms ≤ 12
          ∧ 1 ≤ digitsVal ds
          ∧ digitsVal ds ≤ daysInMonth (digitsVal ys) (digitsVal ms) := by
  constructor
  · intro h
    simp only [get_logfile_info] at h
    cases hm : matchFilename s with
    | none =>
      simp only [hm] at h
      cases h
    | some q =>
      obtain ⟨c0, y0, m0, d0⟩ := q
      simp only [hm] at h
      cases hd : date_new y0 m0 d0 with
      | none =>
        simp only [hd] at h
        cases h
      | some dt0 =>
        simp only [hd] at h
        cases h
        rcases (matchFilename_iff s cS y0 m0 d0).mp hm with
          ⟨ys, ms, ds, tail, h1, h2, h3, h4, h5, h6, h7, h8, h9, rfl, rfl, rfl⟩
        rcases (date_new_eq_some _ _ _ dt).mp hd with ⟨hcond, rfl⟩
        exact ⟨ys, ms, ds, tail, h1, h2, h3, h4, h5, h6, h7, h8, h9, rfl,
          hcond.1, hcond.2.1, hcond.2.2.1, hcond.2.2.2.1, hcond.2.2.2.2.1,
          hcond.2.2.2.2.2⟩
  · rintro ⟨ys, ms, ds, tail, hdecomp, htail, hc, h4, h2m, h2d, hys, hms, hds,
      rfl, hb1, hb2, hb3, hb4, hb5, hb6⟩
    have hm : matchFilename s = some (cS, digitsVal ys, digitsVal ms, digitsVal ds) :=
      (matchFilename_iff s cS _ _ _).mpr
        ⟨ys, ms, ds, tail, hdecomp, htail, hc, h4, h2m, h2d, hys, hms, hds, rfl, rfl, rfl⟩
    have hd : date_new (digitsVal ys) (digitsVal ms) (digitsVal ds)
        = some ⟨digitsVal ys, digitsVal ms, digitsVal ds⟩ :=
      (date_new_eq_some _ _ _ _).mpr ⟨⟨hb1, hb2, hb3, hb4, hb5, hb6⟩, rfl⟩
    simp only [get_logfile_info, hm, hd]

/-- C3 witness: the characterization applied to the concrete base name
`chan-2021-05-26.log`. -/
theorem c3_witness :
    get_logfile_info "chan-2021-05-26.log".toList
      = .ok ("chan".toList, ⟨2021, 5, 26⟩) :=
  (c3_filename_parsing "chan-2021-05-26.log".toList "chan".toList ⟨2021, 5, 26⟩).mpr
    ⟨"2021".toList, "05".toList, "26".toList, [], by decide, Or.inl rfl, by decide,
     by decide, by decide, by decide, by decide, by decide, by decide, by decide,
     by decide, by decide, by decide, by decide, by decide, by decide⟩

/-- C3 counterexample: `a-b-2021-05-26.log` is of the claimed form
`<channel>-<YYYY>-<MM>-<DD>.log` with channel `a-b`, yet parsing raises
ValueError, because the channel group of the regex cannot contain a
hyphen. -/
theorem c3_counterexample :
    "a-b-2021-05-26.log".toList
        = "a-b".toList
            ++ '-' :: ("2021".toList
            ++ '-' :: ("05".toList
            ++ '-' :: ("26".toList ++ '.' :: 'l' :: 'o' :: 'g' :: [])))
      ∧ get_logfile_info "a-b-2021-05-26.log".toList = .error .valueError := by
  decide

theorem stripPre_append : ∀ (p t : List Char), stripPre p (p ++ t) = some t := by
  intro p
  induction p with
  | nil => intro t; rfl
  | cons a p ih => intro t; simp [stripPre, ih]

theorem finishMatch_exact (pre : List Char) (h : LinkType) (id : List Char)
    (ext : Option (List Char))
    (hid : ∀ c ∈ id, wordHy c = true)
    (hext : ∀ e, ext = some e → ∀ c ∈ e, isWordChar c = true) :
    finishMatch pre h ('/' :: (id ++ mkExt ext))
      = some (⟨h, id, pre ++ '/' :: id ++ mkExt ext⟩, []) := by
  cases ext with
  | none =>
    simp only [mkExt, List.append_nil, finishMatch]
    rw [List.takeWhile_eq_self_iff.mpr hid, List.dropWhile_eq_nil_iff.mpr hid]
  | some e =>
    simp only [mkExt, finishMatch]
    rcases takeWhile_append_of_all wordHy id ('.' :: e) hid with ⟨h1, h2⟩
    rw [h1, h2, List.takeWhile_cons_of_neg (by decide),
      List.dropWhile_cons_of_neg (by decide), List.append_nil]
    show (some (⟨h, id, pre ++ '/' :: id ++ '.' :: e.takeWhile isWordChar⟩,
        e.dropWhile isWordChar) : Option (LinkMatch × List Char))
      = some (⟨h, id, pre ++ '/' :: id ++ '.' :: e⟩, [])
    have he : ∀ c ∈ e, isWordChar c = true := hext e rfl
    rw [List.takeWhile_eq_self_iff.mpr he, List.dropWhile_eq_nil_iff.mpr he]

theorem hostPart_value (pre : List Char) (iOk : Bool) (h : LinkType)
    (id : List Char) (ext : Option (List Char))
    (hid : ∀ c ∈ id, wordHy c = true)
    (hext : ∀ e, ext = some e → ∀ c ∈ e, isWordChar c = true)
    (hnu : h = LinkType.Nuuls → iOk = true) :
    hostPart pre iOk (h.value ++ ('/' :: (id ++ mkExt ext)))
      = some (⟨h, id, (pre ++ h.value) ++ '/' :: id ++ mkExt ext⟩, []) := by
  cases h with
  | Imgur =>
    have h1 := stripPre_append "imgur.com".toList ('/' :: (id ++ mkExt ext))
    have h2 := finishMatch_exact (pre ++ "imgur.com".toList) .Imgur id ext hid hext
    simp only [LinkType.value, hostPart, h1, h2, Option.some_orElse]
  | Gyazo =>
    have h0 : stripPre "imgur.com".toList
        ("gyazo.com".toList ++ ('/' :: (id ++ mkExt ext))) = none := rfl
    have h1 := stripPre_append "gyazo.com".toList ('/' :: (id ++ mkExt ext))
    have h2 := finishMatch_exact (pre ++ "gyazo.com".toList) .Gyazo id ext hid hext
    simp only [LinkType.value, hostPart, h0, h1, h2, Option.none_orElse,
      Option.some_orElse]
  | Nuuls =>
    have hio := hnu rfl
    subst hio
    have h0a : stripPre "imgur.com".toList
        ("nuuls.com".toList ++ ('/' :: (id ++ mkExt ext))) = none := rfl
    have h0b : stripPre "gyazo.com".toList
        ("nuuls.com".toList ++ ('/' :: (id ++ mkExt ext))) = none := rfl
    have h1 := stripPre_append "nuuls.com".toList ('/' :: (id ++ mkExt ext))
    have h2 := finishMatch_exact (pre ++ "nuuls.com".toList) .Nuuls id ext hid hext
    simp only [LinkType.value, hostPart, h0a, h0b, h1, h2, if_true,
      Option.none_orElse, Option.some_orElse]

theorem afterScheme_mkSub (pre : List Char) (h : LinkType) (isub : Bool)
    (id : List Char) (ext : Option (List Char))
    (hid : ∀ c ∈ id, wordHy c = true)
    (hext : ∀ e, ext = some e → ∀ c ∈ e, isWordChar c = true)
    (hnu : h = LinkType.Nuuls → isub = true) :
    afterScheme pre false (mkSub isub ++ (h.value ++ ('/' :: (id ++ mkExt ext))))
      = some (⟨h, id, ((pre ++ mkSub isub) ++ h.value) ++ '/' :: id ++ mkExt ext⟩, []) := by
  cases isub with
  | true =>
    simp only [mkSub]
    have h1 := stripPre_append "i.".toList (h.value ++ ('/' :: (id ++ mkExt ext)))
    have h2 := hostPart_value (pre ++ "i.".toList) true h id ext hid hext (fun _ => rfl)
    simp only [afterScheme, h1, h2, Option.some_orElse]
  | false =>
    simp only [mkSub, List.nil_append]
    have h1 : stripPre "i.".toList (h.value ++ ('/' :: (id ++ mkExt ext))) = none := by
      cases h <;> rfl
    have h2 := hostPart_value pre false h id ext hid hext hnu
    simp only [afterScheme, h1, h2, Option.none_orElse]
    simp [List.append_nil]

theorem orElse_eq_right {α : Type} (A B : Option α) (v : α)
    (h1 : A = none) (h2 : B = some v) : (A <|> B) = some v := by
  rw [h1, h2]
  rfl

theorem orElse_eq_left {α : Type} (A B : Option α) (v : α)
    (h1 : A = some v) : (A <|> B) = some v := by
  rw [h1]
  rfl

theorem tryMatch_mkUrl (sch : Option Bool) (isub : Bool) (h : LinkType)
    (id : List Char) (ext : Option (List Char))
    (hid : ∀ c ∈ id, wordHy c = true)
    (hext : ∀ e, ext = some e → ∀ c ∈ e, isWordChar c = true)
    (hnu : h = LinkType.Nuuls → isub = true) :
    tryMatch false (mkUrl sch isub h id ext)
      = some (⟨h, id, mkUrl sch isub h id ext⟩, []) := by
  cases sch with
  | none =>
    have h0a : stripPre "https://".toList
        (mkSub isub ++ (h.value ++ ('/' :: (id ++ mkExt ext)))) = none := by
      cases isub <;> cases h <;> rfl
    have h0b : stripPre "http://".toList
        (mkSub isub ++ (h.value ++ ('/' :: (id ++ mkExt ext)))) = none := by
      cases isub <;> cases h <;> rfl
    show tryMatch false (mkSub isub ++ (h.value ++ ('/' :: (id ++ mkExt ext))))
      = some (⟨h, id, mkSub isub ++ (h.value ++ ('/' :: (id ++ mkExt ext)))⟩, [])
    refine orElse_eq_right _ _ _ ?_ (orElse_eq_right _ _ _ ?_ ?_)
    · rw [h0a]
    · rw [h0b]
    · rw [afterScheme_mkSub [] h isub id ext hid hext hnu]
      simp [List.append_assoc]
  | some b =>
    cases b with
    | true =>
      show tryMatch false
          ("https://".toList ++ (mkSub isub ++ (h.value ++ ('/' :: (id ++ mkExt ext)))))
        = some (⟨h, id,
            "https://".toList ++ (mkSub isub ++ (h.value ++ ('/' :: (id ++ mkExt ext))))⟩, [])
      refine orElse_eq_left _ _ _ ?_
      rw [stripPre_append]
      show afterScheme "https://".toList false
          (mkSub isub ++ (h.value ++ ('/' :: (id ++ mkExt ext))))
        = some (⟨h, id,
            "https://".toList ++ (mkSub isub ++ (h.value ++ ('/' :: (id ++ mkExt ext))))⟩, [])
      rw [afterScheme_mkSub "https://".toList h isub id ext hid hext hnu]
      simp [List.append_assoc]
    | false =>
      have h0 : stripPre "https://".toList
          ("http://".toList ++ (mkSub isub ++ (h.value ++ ('/' :: (id ++ mkExt ext)))))
            = none := rfl
      show tryMatch false
          ("http://".toList ++ (mkSub isub ++ (h.value ++ ('/' :: (id ++ mkExt ext)))))
        = some (⟨h, id,
            "http://".toList ++ (mkSub isub ++ (h.value ++ ('/' :: (id ++ mkExt ext))))⟩, [])
      refine orElse_eq_right _ _ _ ?_ (orElse_eq_left _ _ _ ?_)
      · rw [h0]
      · rw [stripPre_append]
        show afterScheme "http://".toList false
            (mkSub isub ++ (h.value ++ ('/' :: (id ++ mkExt ext))))
          = some (⟨h, id,
              "http://".toList ++ (mkSub isub ++ (h.value ++ ('/' :: (id ++ mkExt ext))))⟩, [])
        rw [afterScheme_mkSub "http://".toList h isub id ext hid hext hnu]
        simp [List.append_assoc]

theorem tryMatch_nil (pI : Bool) : tryMatch pI [] = none := by
  cases pI <;> rfl

theorem scanAux_nil (f : Nat) (rp : List Char) : scanAux f rp [] = [] := by
  cases f <;> rfl

theorem scan_single (t : List Char) (m : LinkMatch)
    (h : tryMatch false t = some (m, [])) : scanLine t = [m] := by
  cases t with
  | nil =>
    rw [tryMatch_nil false] at h
    cases h
  | cons c t2 =>
    show scanAux (t2.length + 1) [] (c :: t2) = [m]
    have h2 : tryMatch (endsInIDot []) (c :: t2) = some (m, []) := h
    simp only [scanAux, h2, scanAux_nil]

/-- C4.  Corrected: on every non-comment line the link regex recognizes,
for each host, an optional scheme, the `i.` subdomain prefix — optional
for imgur.com and gyazo.com but mandatory for nuuls.com (the alternation
guards `nuuls.com` with a lookbehind for `i.`) — the domain, a path
segment of word characters and hyphens as the specific id, and an
optional extension; all matches on a line are extracted and comment
lines yield no records. -/
theorem c4_link_regex :
    (∀ (sch : Option Bool) (isub : Bool) (h : LinkType) (id : List Char)
        (ext : Option (List Char)),
      (∀ c ∈ id, wordHy c = true) →
      (∀ e, ext = some e → ∀ c ∈ e, isWordChar c = true) →
      (h = LinkType.Nuuls → isub = true) →
      scanLine (mkUrl sch isub h id ext)
        = [⟨h, id, mkUrl sch isub h id ext⟩])
      ∧ (∀ (chan : List Char) (fd : PyDate) (line : List Char)
            (rest : List (List Char)),
          processLines chan fd (('#' :: line) :: rest) = processLines chan fd rest)
      ∧ scanLine "see imgur.com/a1-x_2.jpg and https://i.gyazo.com/b2 now".toList
          = [⟨LinkType.Imgur, "a1-x_2".toList, "imgur.com/a1-x_2.jpg".toList⟩,
             ⟨LinkType.Gyazo, "b2".toList, "https://i.gyazo.com/b2".toList⟩] := by
  refine ⟨?_, ?_, by decide⟩
  · intro sch isub h id ext hid hext hnu
    exact scan_single _ _ (tryMatch_mkUrl sch isub h id ext hid hext hnu)
  · intro chan fd line rest
    simp only [processLines]
    have hc : List.take 1 ('#' :: line) = ['#'] := rfl
    rw [if_pos hc]

/-- C4 witness: the general match shape applied to a concrete https imgur
URL with extension `jpg`. -/
theorem c4_witness :
    scanLine (mkUrl (some true) false LinkType.Imgur "abc123".toList (some "jpg".toList))
      = [⟨LinkType.Imgur, "abc123".toList,
          mkUrl (some true) false LinkType.Imgur "abc123".toList (some "jpg".toList)⟩] :=
  c4_link_regex.1 (some true) false LinkType.Imgur "abc123".toList (some "jpg".toList)
    (by decide)
    (by intro e he; injection he with h2; subst h2; decide)
    (by decide)

/-- C4 counterexample: a nuuls.com URL without the `i.` subdomain is not
matched even with a scheme (the lookbehind demands a preceding `i.`), so
the subdomain prefix is not optional for nuuls.com; with `i.` the same id
matches, and the extractor yields no record for the bare-domain line. -/
theorem c4_counterexample :
    scanLine "https://nuuls.com/abc123".toList = []
      ∧ scanLine "https://i.nuuls.com/abc123".toList
          = [⟨LinkType.Nuuls, "abc123".toList, "https://i.nuuls.com/abc123".toList⟩]
      ∧ get_all_links [⟨"chan-2021-05-26.log".toList,
            some ["[12:30:45]  user: https://nuuls.com/abc123".toList]⟩]
          = .ok [] := by
  decide

/-- C8 witness: the filter characterization applied to the concrete
collection `[sampleLink]`. -/
theorem c8_witness :
    filter_and_format_links [sampleLink]
      = ([sampleLink].filter keepLink).map stripMsgRecord :=
  c8_filter_drop_set.1 [sampleLink]

/-- C9 witness: idempotence at the concrete collection `[sampleLink]`. -/
theorem c9_witness :
    filter_and_format_links (filter_and_format_links [sampleLink])
      = filter_and_format_links [sampleLink] :=
  c9_filter_idempotent [sampleLink]
